import Mathlib

/-!
Shallow embedding of the stats-aggregation core of `weblate_stats.py`
(openstack-i18n-kr/zanata2weblate).

Python `dict`s (and `collections.defaultdict`) are modelled as
insertion-ordered association lists: lookup returns the first binding,
assignment to an existing key replaces its value in place, assignment to a
fresh key appends the binding at the end.  This matches CPython dict
semantics exactly (dict keys are unique, so "first binding" is "the"
binding).

The value sitting under a `(project, version)` key of `User.stats` is
either a bucket dict `{"translation-stats": ..., "review-stats": ...}`
(created by `read_from_weblate_stats`, line 331 of the source) or a bare
counter dict (stored under the reserved `"__total__"` key by
`populate_total_stats`, lines 359-360).  The inductive `VEntry` carries
both shapes.  `stats.get("translation-stats", {})` on a bare counter dict
returns `{}` in Python, because counter dicts only ever hold keys drawn
from the two field enums; `getTransStats`/`getReviewStats` mirror that.
-/

/-- One raw per-record statistics entry of the remote API, with the fields
`read_from_weblate_stats` reads (source lines 312-317). -/
structure WeblateStat where
  projectSlug : String
  versionSlug : String
  localeId : String
  savedState : String
  wordCount : Nat
deriving DecidableEq

/-- A counter dict: state label (or `"total"`) to accumulated word count,
in insertion order (`collections.defaultdict(int)`). -/
abbrev CounterMap := List (String × Nat)

/-- `c.get(k, 0)` / `defaultdict(int)` read. -/
def cmGet (c : CounterMap) (k : String) : Nat :=
  (c.lookup k).getD 0

/-- `c[k] += w` on a `defaultdict(int)`: add to the binding in place if the
key is present, otherwise append the new binding at the end. -/
def cmAdd (c : CounterMap) (k : String) (w : Nat) : CounterMap :=
  match c with
  | [] => [(k, w)]
  | p :: rest => if p.1 = k then (p.1, p.2 + w) :: rest else p :: cmAdd rest k w

/-- `m[k] = v` on a Python dict: replace in place, or append a fresh key. -/
def dictSet {β : Type} (m : List (String × β)) (k : String) (v : β) :
    List (String × β) :=
  match m with
  | [] => [(k, v)]
  | p :: rest => if p.1 = k then (k, v) :: rest else p :: dictSet rest k v

/-- A value stored under a version-level key of `User.stats`: either the
bucket dict built at source line 331, or a bare counter dict as stored
under `"__total__"` at source lines 359-360. -/
inductive VEntry where
  | bucket (trans review : CounterMap)
  | bare (c : CounterMap)
deriving DecidableEq

abbrev VersionMap := List (String × VEntry)
abbrev StatsMap := List (String × VersionMap)

/-- `stats.get("translation-stats", {})` (source lines 338, 353, 393): a
bucket dict yields its translation counter dict; a bare counter dict has no
`"translation-stats"` key (its keys are state labels), so `.get` yields `{}`. -/
def getTransStats : VEntry → CounterMap
  | .bucket t _ => t
  | .bare _ => []

/-- `stats.get("review-stats", {})` (source lines 343, 356, 394). -/
def getReviewStats : VEntry → CounterMap
  | .bucket _ r => r
  | .bare _ => []

/-- Direct read `stats["__total__"][key]` as a counter dict (source lines
405, 408); only ever applied to the bare totals written by
`populate_total_stats`. -/
def asCounterMap : VEntry → CounterMap
  | .bucket _ _ => []
  | .bare c => c

/-- The `User` entity (source lines 272-296): identity plus the
`stats` mapping `project_id -> version -> VEntry`. -/
structure User where
  user_id : String
  lang : String
  stats : StatsMap
deriving DecidableEq

/-- `User.__init__` (source lines 276-279): empty stats mapping. -/
def User.new (user_id language_code : String) : User :=
  ⟨user_id, language_code, []⟩

/-- `User.trans_fields` (source line 273). -/
def User.trans_fields : List String :=
  ["total", "Translated", "NeedReview", "Approved", "Rejected"]

/-- `User.review_fields` (source line 274). -/
def User.review_fields : List String :=
  ["total", "Approved", "Rejected"]

/-- The state-accumulation step of `read_from_weblate_stats` (source lines
337-345) applied to one version-level entry: if the state label is in
`trans_fields`, add the word count to that state's counter and to the
translation total; independently for `review_fields`.  A bare counter dict
is never reached by the program here (folding precedes
`populate_total_stats`); it is carried through unchanged. -/
def VEntry.addState (e : VEntry) (stat_state : String) (word_count : Nat) : VEntry :=
  match e with
  | .bucket t r =>
      let t := if User.trans_fields.contains stat_state then
                 cmAdd (cmAdd t stat_state word_count) "total" word_count
               else t
      let r := if User.review_fields.contains stat_state then
                 cmAdd (cmAdd r stat_state word_count) "total" word_count
               else r
      .bucket t r
  | .bare c => .bare c

/-- The per-record body of `read_from_weblate_stats` after the three filter
checks (source lines 328-345): locate or lazily create the
`(project, version)` bucket, then accumulate the state. -/
def User.process_stat (u : User) (ws : WeblateStat) : User :=
  let my_project := (u.stats.lookup ws.projectSlug).getD []
  let my_project :=
    if (my_project.lookup ws.versionSlug).isSome then my_project
    else dictSet my_project ws.versionSlug (VEntry.bucket [] [])
  let my_version := (my_project.lookup ws.versionSlug).getD (VEntry.bucket [] [])
  let my_project :=
    dictSet my_project ws.versionSlug (my_version.addState ws.savedState ws.wordCount)
  { u with stats := dictSet u.stats ws.projectSlug my_project }

/-- One iteration of the `for weblate_stat in weblate_stats` loop of
`read_from_weblate_stats` (source lines 312-345): the three `continue`
filters, then the accumulation body. -/
def User.foldOne (u : User) (ws : WeblateStat) (project_list version_list : List String) :
    User :=
  if !project_list.isEmpty && !(project_list.contains ws.projectSlug) then u
  else if !version_list.isEmpty && !(version_list.contains ws.versionSlug) then u
  else if u.lang != ws.localeId then u
  else u.process_stat ws

/-- `User.read_from_weblate_stats` (source lines 298-345). -/
def User.read_from_weblate_stats (u : User) (weblate_stats : List WeblateStat)
    (project_list version_list : List String) : User :=
  weblate_stats.foldl (fun acc ws => acc.foldOne ws project_list version_list) u

/-- The field-wise grand total of `populate_total_stats` (source lines
348-358): summing a counter field over every version-level entry of every
project. -/
def sumStats (s : StatsMap) (f : VEntry → CounterMap) (k : String) : Nat :=
  (s.map (fun pv => (pv.2.map (fun ve => cmGet (f ve.2) k)).sum)).sum

/-- The totals dict `dict([(k, 0) for k in fields])` after the accumulation
loop of `populate_total_stats`: keys in field order, each holding the grand
total of that field. -/
def totalsOf (s : StatsMap) (f : VEntry → CounterMap) (fields : List String) :
    CounterMap :=
  fields.map (fun k => (k, sumStats s f k))

/-- `self.stats["__total__"][key] = c` (source lines 359-360): the
defaultdict access creates the `"__total__"` entry when absent, then the
version-level key is assigned the bare counter dict. -/
def setTotals (s : StatsMap) (key : String) (c : CounterMap) : StatsMap :=
  dictSet s "__total__" (dictSet ((s.lookup "__total__").getD []) key (VEntry.bare c))

/-- `User.populate_total_stats` (source lines 347-360). -/
def User.populate_total_stats (u : User) : User :=
  let total_trans := totalsOf u.stats getTransStats User.trans_fields
  let total_review := totalsOf u.stats getReviewStats User.review_fields
  let stats :=
    setTotals (setTotals u.stats "translation-stats" total_trans)
      "review-stats" total_review
  { u with stats := stats }

/-- `User.needs_output` (source lines 362-365): `bool(self.stats)` is
non-emptiness of the mapping, `all(self.stats.values())` is truthiness
(non-emptiness) of every version mapping. -/
def User.needs_output (u : User) (include_no_activities : Bool) : Bool :=
  if include_no_activities then true
  else !u.stats.isEmpty && u.stats.all (fun pv => !pv.2.isEmpty)

/-- A cell of a flattened CSV row: Python rows mix strings and ints, and
`csv.writer` stringifies each cell. -/
inductive Cell where
  | str (s : String)
  | nat (n : Nat)
deriving DecidableEq

def Cell.render : Cell → String
  | .str s => s
  | .nat n => toString n

/-- How `csv.writer` renders one row (none of the produced cells needs
quoting). -/
def csvLine (cells : List Cell) : String :=
  String.intercalate "," (cells.map Cell.render)

/-- Read a totals counter dict `self.stats["__total__"][key]` with the
`defaultdict`-style defaults used throughout. -/
def totalCounter (s : StatsMap) (key : String) : CounterMap :=
  match ((s.lookup "__total__").getD []).lookup key with
  | some e => asCounterMap e
  | none => []

/-- `User.convert_to_flattened_data` (source lines 384-411): populate the
totals, emit one row per `(project, version)` when `detail` is set
(skipping the reserved `"__total__"` key), then unconditionally the one
grand-total row with `"-"` placeholders. -/
def User.convert_to_flattened_data (u : User) (detail : Bool) : List (List Cell) :=
  let u := u.populate_total_stats
  let data := u.stats.flatMap (fun pv =>
    if pv.1 = "__total__" then []
    else pv.2.flatMap (fun ve =>
      if detail then
        [[Cell.str u.user_id, Cell.str u.lang, Cell.str pv.1, Cell.str ve.1]
          ++ User.trans_fields.map (fun k => Cell.nat (cmGet (getTransStats ve.2) k))
          ++ User.review_fields.map (fun k => Cell.nat (cmGet (getReviewStats ve.2) k))]
      else []))
  data ++
    [[Cell.str u.user_id, Cell.str u.lang, Cell.str "-", Cell.str "-"]
      ++ User.trans_fields.map (fun k =>
           Cell.nat (cmGet (totalCounter u.stats "translation-stats") k))
      ++ User.review_fields.map (fun k =>
           Cell.nat (cmGet (totalCounter u.stats "review-stats") k))]

/-- `User.__lt__` (source lines 292-296). -/
def User.lt (u other : User) : Bool :=
  if u.lang != other.lang then decide (u.lang < other.lang)
  else decide (u.user_id < other.user_id)

/-- The comparison under which Python's `sorted` (ascending, via `__lt__`)
orders its output: `a` may precede `b` exactly when `not (b < a)`. -/
def userSortLe (a b : User) : Bool :=
  ! User.lt b a

/-- The user-selection step of `write_stats_to_file` (source line 423):
filter by `needs_output`, then sort ascending by `__lt__`. -/
def write_stats_selected_users (users : List User) (include_no_activities : Bool) :
    List User :=
  (users.filter (fun u => u.needs_output include_no_activities)).mergeSort userSortLe

/-- A YAML scalar used as an identifier: numeric-looking IDs parse as
integers unless quoted (see the comment at source lines 240-242). -/
inductive YamlId where
  | int (i : Int)
  | str (s : String)
deriving DecidableEq

/-- Python `str(i)` on such a scalar. -/
def YamlId.asString : YamlId → String
  | .int i => toString i
  | .str s => s

/-- One value of the language-team YAML mapping, with the keys
`LanguageTeam.__init__` reads (source lines 237-245); `reviewers` and
`coordinators` already carry the `.get(..., [])` default. -/
structure TeamInfo where
  language : String
  translators : List YamlId
  reviewers : List YamlId
  coordinators : List YamlId
deriving DecidableEq

/-- `LanguageTeam` (source lines 236-245): all IDs stringified. -/
structure LanguageTeam where
  language_code : String
  language : String
  translators : List String
  reviewers : List String
  coordinators : List String
deriving DecidableEq

/-- `LanguageTeam.__init__` applied to one YAML entry. -/
def LanguageTeam.ofYaml (lang_code : String) (team_info : TeamInfo) : LanguageTeam :=
  ⟨lang_code, team_info.language,
    team_info.translators.map YamlId.asString,
    team_info.reviewers.map YamlId.asString,
    team_info.coordinators.map YamlId.asString⟩

/-- `LanguageTeam.load_from_language_team_yaml` (source lines 247-269): the
parsed YAML mapping is the ordered association list `content`; `sys.exit(1)`
on a filtered language missing from it is modelled as `Except.error ()`. -/
def LanguageTeam.load_from_language_team_yaml (content : List (String × TeamInfo))
    (lang_list : List String) : Except Unit (List LanguageTeam) :=
  if !lang_list.isEmpty &&
      !(lang_list.filter (fun lang_code =>
          !(content.map Prod.fst).contains lang_code)).isEmpty then
    Except.error ()
  else
    Except.ok ((content.filter (fun p =>
      lang_list.isEmpty || lang_list.contains p.1)).map
        (fun p => LanguageTeam.ofYaml p.1 p.2))

/-- Which counter set of a bucket a claim talks about. -/
inductive StatKind where
  | translation
  | review
deriving DecidableEq

/-- The version-level entry at `(p, v)` of a stats mapping, if any. -/
def statEntry (u : User) (p v : String) : Option VEntry :=
  ((u.stats.lookup p).getD []).lookup v

/-- Observe one counter value of the `(p, v)` bucket of a user's stats
mapping, with 0 for anything absent. -/
def counterValue (u : User) (p v : String) (kind : StatKind) (f : String) : Nat :=
  let e := (statEntry u p v).getD (VEntry.bucket [] [])
  cmGet (match kind with
         | .translation => getTransStats e
         | .review => getReviewStats e) f

/-- Every project of the stats mapping has at least one version entry; this
holds for every `User` the program builds (`__init__` starts empty,
`read_from_weblate_stats` always inserts a version into any project it
touches, `populate_total_stats` writes two keys under `"__total__"`). -/
def GoodStats (u : User) : Bool :=
  u.stats.all (fun pv => !pv.2.isEmpty)

/-- `total` equals the sum of the other fields of the counter set. -/
def counterInv (fields : List String) (c : CounterMap) : Bool :=
  cmGet c "total" == ((fields.filter (fun f => f != "total")).map (cmGet c)).sum

/-- `counterInv` for both counter sets of one version-level entry (bare
totals dicts are not per-bucket counter sets). -/
def entryInv : VEntry → Bool
  | .bucket t r => counterInv User.trans_fields t && counterInv User.review_fields r
  | .bare _ => true

/-- The C2 invariant over every `(project, version)` bucket. -/
def bucketsInv (u : User) : Bool :=
  u.stats.all (fun pv => pv.2.all (fun ve => entryInv ve.2))

/-- The C2 invariant for the recomputed total bucket. -/
def totalBucketInv (u : User) : Bool :=
  counterInv User.trans_fields (totalCounter u.stats "translation-stats") &&
    counterInv User.review_fields (totalCounter u.stats "review-stats")

def isBare : VEntry → Bool
  | .bare _ => true
  | .bucket _ _ => false

/-- No real bucket hides under the reserved `"__total__"` project at the
version keys `populate_total_stats` assigns; violated only by folding a
record whose `projectSlug` is literally `"__total__"` with `versionSlug`
`"translation-stats"` or `"review-stats"`. -/
def noTotalCollision (u : User) : Bool :=
  let vs := (u.stats.lookup "__total__").getD []
  (match vs.lookup "translation-stats" with
   | some e => isBare e
   | none => true) &&
  (match vs.lookup "review-stats" with
   | some e => isBare e
   | none => true)

/-- The entry at `(p, v)`, if any, is a bucket (true of every entry the
folding code ever reads). -/
def entryIsBucketLike (u : User) (p v : String) : Bool :=
  match ((u.stats.lookup p).getD []).lookup v with
  | some (VEntry.bare _) => false
  | _ => true

/-- The end-to-end scenario of the spec: user `"1001"` of language `"ko"`
folding the two sample records with empty filters. -/
def scenarioUser : User :=
  (User.new "1001" "ko").read_from_weblate_stats
    [⟨"i18n", "master", "ko", "Translated", 100⟩,
     ⟨"i18n", "master", "ko", "Approved", 20⟩] [] []

/-- A fold whose record collides with the reserved total bucket: project
`"__total__"`, version `"translation-stats"`. -/
def collisionUser : User :=
  (User.new "1001" "ko").read_from_weblate_stats
    [⟨"__total__", "translation-stats", "ko", "Translated", 5⟩] [] []

/-- A fold of a single record whose state label is the literal `"total"`. -/
def totalStateUser : User :=
  (User.new "1001" "ko").read_from_weblate_stats
    [⟨"i18n", "master", "ko", "total", 7⟩] [] []

/-- The skip condition of the per-record loop as the spec words it: the
record is dropped when a non-empty project filter misses its project, or a
non-empty version filter misses its version, or its locale differs from the
user's language. -/
def skipCond (u : User) (ws : WeblateStat) (project_list version_list : List String) :
    Prop :=
  (project_list ≠ [] ∧ ws.projectSlug ∉ project_list) ∨
    (version_list ≠ [] ∧ ws.versionSlug ∉ version_list) ∨
    ws.localeId ≠ u.lang

instance (u : User) (ws : WeblateStat) (ps vs : List String) :
    Decidable (skipCond u ws ps vs) := by
  unfold skipCond
  infer_instance

/-! ### Association-list lemmas -/

theorem lookup_cons_self {β : Type} (k : String) (b : β) (es : List (String × β)) :
    List.lookup k ((k, b) :: es) = some b := by
  simp [List.lookup]

theorem lookup_cons_ne {β : Type} {k a : String} (b : β) (es : List (String × β))
    (h : k ≠ a) : List.lookup k ((a, b) :: es) = List.lookup k es := by
  have hb : (k == a) = false := by simpa using h
  simp [List.lookup, hb]

theorem dictSet_nil {β : Type} (k : String) (v : β) : dictSet [] k v = [(k, v)] := rfl

theorem dictSet_cons_pos {β : Type} {a k : String} (h : a = k) (b v : β)
    (rest : List (String × β)) : dictSet ((a, b) :: rest) k v = (k, v) :: rest := by
  simp [dictSet, h]

theorem dictSet_cons_neg {β : Type} {a k : String} (h : ¬a = k) (b v : β)
    (rest : List (String × β)) :
    dictSet ((a, b) :: rest) k v = (a, b) :: dictSet rest k v := by
  simp [dictSet, h]

theorem cmAdd_nil (k : String) (w : Nat) : cmAdd [] k w = [(k, w)] := rfl

theorem cmAdd_cons_pos {a k : String} (h : a = k) (b : Nat) (w : Nat)
    (rest : CounterMap) : cmAdd ((a, b) :: rest) k w = (a, b + w) :: rest := by
  simp [cmAdd, h]

theorem cmAdd_cons_neg {a k : String} (h : ¬a = k) (b : Nat) (w : Nat)
    (rest : CounterMap) : cmAdd ((a, b) :: rest) k w = (a, b) :: cmAdd rest k w := by
  simp [cmAdd, h]

theorem lookup_dictSet_self {β : Type} (m : List (String × β)) (k : String) (v : β) :
    (dictSet m k v).lookup k = some v := by
  induction m with
  | nil => exact lookup_cons_self k v []
  | cons p rest ih =>
      obtain ⟨a, b⟩ := p
      by_cases h : a = k
      · rw [dictSet_cons_pos h, lookup_cons_self]
      · rw [dictSet_cons_neg h, lookup_cons_ne _ _ (Ne.symm h)]
        exact ih

theorem lookup_dictSet_ne {β : Type} (m : List (String × β)) {k k' : String} (v : β)
    (h : k' ≠ k) : (dictSet m k v).lookup k' = m.lookup k' := by
  induction m with
  | nil => rw [dictSet_nil, lookup_cons_ne _ _ h]
  | cons p rest ih =>
      obtain ⟨a, b⟩ := p
      by_cases hp : a = k
      · rw [dictSet_cons_pos hp, lookup_cons_ne _ _ h,
          lookup_cons_ne _ _ (fun hc => h (hc.trans hp))]
      · by_cases hk : k' = a
        · subst hk
          rw [dictSet_cons_neg hp, lookup_cons_self, lookup_cons_self]
        · rw [dictSet_cons_neg hp, lookup_cons_ne _ _ hk, lookup_cons_ne _ _ hk]
          exact ih

theorem dictSet_eq_self {β : Type} {m : List (String × β)} {k : String} {v : β}
    (h : m.lookup k = some v) : dictSet m k v = m := by
  induction m with
  | nil => simp [List.lookup] at h
  | cons p rest ih =>
      obtain ⟨a, b⟩ := p
      by_cases hp : k = a
      · subst hp
        rw [lookup_cons_self] at h
        cases h
        rw [dictSet_cons_pos rfl]
      · rw [lookup_cons_ne _ _ hp] at h
        rw [dictSet_cons_neg (fun hc => hp hc.symm), ih h]

theorem mem_dictSet {β : Type} {m : List (String × β)} {k : String} {v : β}
    {x : String × β} (hx : x ∈ dictSet m k v) : x ∈ m ∨ x = (k, v) := by
  induction m with
  | nil =>
      rw [dictSet_nil] at hx
      simp at hx
      simp [hx]
  | cons p rest ih =>
      obtain ⟨a, b⟩ := p
      by_cases hp : a = k
      · rw [dictSet_cons_pos hp] at hx
        rcases List.mem_cons.mp hx with h | h
        · simp [h]
        · simp [h]
      · rw [dictSet_cons_neg hp] at hx
        rcases List.mem_cons.mp hx with h | h
        · simp [h]
        · rcases ih h with h' | h' <;> simp [h']

theorem dictSet_ne_nil {β : Type} (m : List (String × β)) (k : String) (v : β) :
    dictSet m k v ≠ [] := by
  cases m with
  | nil => simp [dictSet_nil]
  | cons p rest =>
      obtain ⟨a, b⟩ := p
      by_cases hp : a = k
      · rw [dictSet_cons_pos hp]
        simp
      · rw [dictSet_cons_neg hp]
        simp

theorem lookup_mem {β : Type} {m : List (String × β)} {k : String} {v : β}
    (h : m.lookup k = some v) : (k, v) ∈ m := by
  induction m with
  | nil => simp [List.lookup] at h
  | cons p rest ih =>
      obtain ⟨a, b⟩ := p
      by_cases hp : k = a
      · subst hp
        rw [lookup_cons_self] at h
        cases h
        simp
      · rw [lookup_cons_ne _ _ hp] at h
        simp [ih h]

theorem cmGet_cmAdd_self (c : CounterMap) (k : String) (w : Nat) :
    cmGet (cmAdd c k w) k = cmGet c k + w := by
  induction c with
  | nil =>
      rw [cmAdd_nil, cmGet, cmGet, lookup_cons_self]
      simp [List.lookup]
  | cons p rest ih =>
      obtain ⟨a, b⟩ := p
      by_cases hp : a = k
      · subst hp
        rw [cmAdd_cons_pos rfl, cmGet, cmGet, lookup_cons_self, lookup_cons_self]
        rfl
      · rw [cmAdd_cons_neg hp, cmGet, cmGet, lookup_cons_ne _ _ (Ne.symm hp),
          lookup_cons_ne _ _ (Ne.symm hp)]
        exact ih

theorem cmGet_cmAdd_ne (c : CounterMap) {k k' : String} (w : Nat) (h : k' ≠ k) :
    cmGet (cmAdd c k w) k' = cmGet c k' := by
  induction c with
  | nil =>
      rw [cmAdd_nil, cmGet, cmGet, lookup_cons_ne _ _ h]
  | cons p rest ih =>
      obtain ⟨a, b⟩ := p
      by_cases hp : a = k
      · subst hp
        rw [cmAdd_cons_pos rfl, cmGet, cmGet, lookup_cons_ne _ _ h,
          lookup_cons_ne _ _ h]
      · by_cases hk : k' = a
        · subst hk
          rw [cmAdd_cons_neg hp, cmGet, cmGet, lookup_cons_self, lookup_cons_self]
        · rw [cmAdd_cons_neg hp, cmGet, cmGet, lookup_cons_ne _ _ hk,
            lookup_cons_ne _ _ hk]
          exact ih

/-! ### Folding-step lemmas -/

theorem foldOne_skip (u : User) (ws : WeblateStat) (ps vs : List String)
    (h : skipCond u ws ps vs) : u.foldOne ws ps vs = u := by
  rw [User.foldOne]
  split_ifs with t1 t2 t3
  · rfl
  · rfl
  · rfl
  · exfalso
    simp [List.isEmpty_eq_false] at t1 t2 t3
    rcases h with ⟨h1, h2⟩ | ⟨h1, h2⟩ | h1
    · exact h2 (t1 h1)
    · exact h2 (t2 h1)
    · exact h1 t3.symm

theorem foldOne_not_skip (u : User) (ws : WeblateStat) (ps vs : List String)
    (h : ¬skipCond u ws ps vs) : u.foldOne ws ps vs = u.process_stat ws := by
  rw [skipCond] at h
  push_neg at h
  obtain ⟨h1, h2, h3⟩ := h
  rw [User.foldOne]
  split_ifs with t1 t2 t3
  · exfalso
    simp [List.isEmpty_eq_false] at t1
    exact t1.2 (h1 t1.1)
  · exfalso
    simp [List.isEmpty_eq_false] at t2
    exact t2.2 (h2 t2.1)
  · exfalso
    simp at t3
    exact t3 h3.symm
  · rfl

theorem statEntry_process_self (u : User) (ws : WeblateStat) :
    statEntry (u.process_stat ws) ws.projectSlug ws.versionSlug =
      some (((statEntry u ws.projectSlug ws.versionSlug).getD
        (VEntry.bucket [] [])).addState ws.savedState ws.wordCount) := by
  rw [statEntry, statEntry, User.process_stat]
  simp only
  rw [lookup_dictSet_self]
  simp only [Option.getD_some]
  rw [lookup_dictSet_self]
  by_cases hv :
      ((((u.stats.lookup ws.projectSlug).getD []).lookup ws.versionSlug)).isSome
  · simp only [hv, if_pos]
  · simp only [hv, if_neg, Bool.false_eq_true, not_false_eq_true]
    rw [lookup_dictSet_self]
    rw [Option.not_isSome_iff_eq_none] at hv
    rw [hv]
    rfl

theorem statEntry_process_ne (u : User) (ws : WeblateStat) (p v : String)
    (h : ¬(p = ws.projectSlug ∧ v = ws.versionSlug)) :
    statEntry (u.process_stat ws) p v = statEntry u p v := by
  by_cases hp : p = ws.projectSlug
  · subst hp
    have hv : v ≠ ws.versionSlug := fun hc => h ⟨rfl, hc⟩
    rw [statEntry, statEntry, User.process_stat]
    simp only
    rw [lookup_dictSet_self]
    simp only [Option.getD_some]
    rw [lookup_dictSet_ne _ _ hv]
    by_cases hs :
        (((u.stats.lookup ws.projectSlug).getD []).lookup ws.versionSlug).isSome
    · simp only [hs, if_pos]
    · simp only [hs, if_neg, Bool.false_eq_true, not_false_eq_true]
      rw [lookup_dictSet_ne _ _ hv]
  · rw [statEntry, statEntry, User.process_stat]
    simp only
    rw [lookup_dictSet_ne _ _ hp]

theorem addState_id (e : VEntry) (s : String) (w : Nat)
    (h1 : s ∉ User.trans_fields) (h2 : s ∉ User.review_fields) :
    e.addState s w = e := by
  cases e with
  | bucket t r =>
      have c1 : User.trans_fields.contains s = false := by simpa using h1
      have c2 : User.review_fields.contains s = false := by simpa using h2
      simp only [VEntry.addState, c1, c2, Bool.false_eq_true, if_false]
  | bare c => rfl

theorem goodStats_process (u : User) (ws : WeblateStat)
    (h : GoodStats u = true) : GoodStats (u.process_stat ws) = true := by
  rw [GoodStats, List.all_eq_true] at h ⊢
  intro x hx
  rw [User.process_stat] at hx
  simp only at hx
  rcases mem_dictSet hx with hm | he
  · exact h x hm
  · rw [he]
    simp [List.isEmpty_eq_false, dictSet_ne_nil]

theorem goodStats_foldOne (u : User) (ws : WeblateStat) (ps vs : List String)
    (h : GoodStats u = true) : GoodStats (u.foldOne ws ps vs) = true := by
  rw [User.foldOne]
  split_ifs with t1 t2 t3
  · exact h
  · exact h
  · exact h
  · exact goodStats_process u ws h

theorem goodStats_read (u : User) (recs : List WeblateStat) (ps vs : List String)
    (h : GoodStats u = true) :
    GoodStats (u.read_from_weblate_stats recs ps vs) = true := by
  rw [User.read_from_weblate_stats]
  induction recs generalizing u with
  | nil => exact h
  | cons r rest ih =>
      exact ih (u.foldOne r ps vs) (goodStats_foldOne u r ps vs h)

/-- Structural characterization of `process_stat`: the new stats mapping
writes back, under the record's project, an intermediate version mapping
`vs1` (the old one, possibly extended by a fresh empty bucket) with the
record's state accumulated at the record's version. -/
theorem process_stat_stats (u : User) (ws : WeblateStat) :
    ∃ vs1 : VersionMap,
      (u.process_stat ws).stats =
          dictSet u.stats ws.projectSlug
            (dictSet vs1 ws.versionSlug
              (((vs1.lookup ws.versionSlug).getD (VEntry.bucket [] [])).addState
                ws.savedState ws.wordCount)) ∧
        ∀ ve ∈ vs1, ve ∈ (u.stats.lookup ws.projectSlug).getD [] ∨
          ve = (ws.versionSlug, VEntry.bucket [] []) := by
  rw [User.process_stat]
  simp only
  by_cases hs : (((u.stats.lookup ws.projectSlug).getD []).lookup ws.versionSlug).isSome
  · refine ⟨(u.stats.lookup ws.projectSlug).getD [], ?_, fun ve hv => Or.inl hv⟩
    simp [hs]
  · refine ⟨dictSet ((u.stats.lookup ws.projectSlug).getD []) ws.versionSlug
      (VEntry.bucket [] []), ?_, fun ve hv => ?_⟩
    · simp [hs]
    · rcases mem_dictSet hv with hm | he
      · exact Or.inl hm
      · exact Or.inr he

theorem counterValue_process_unrecognized (u : User) (ws : WeblateStat)
    (h1 : ws.savedState ∉ User.trans_fields) (h2 : ws.savedState ∉ User.review_fields)
    (p v : String) (kind : StatKind) (f : String) :
    counterValue (u.process_stat ws) p v kind f = counterValue u p v kind f := by
  by_cases hpv : p = ws.projectSlug ∧ v = ws.versionSlug
  · obtain ⟨hp, hv⟩ := hpv
    subst hp
    subst hv
    simp only [counterValue]
    rw [statEntry_process_self, addState_id _ _ _ h1 h2]
    cases statEntry u ws.projectSlug ws.versionSlug <;> rfl
  · simp only [counterValue]
    rw [statEntry_process_ne _ _ _ _ hpv]

/-- `addState` for a label in both enums: both counter sets take the word
count at the label and at `"total"`. -/
theorem addState_shared (t r : CounterMap) (s : String) (w : Nat)
    (h1 : s ∈ User.trans_fields) (h2 : s ∈ User.review_fields) :
    (VEntry.bucket t r).addState s w =
      VEntry.bucket (cmAdd (cmAdd t s w) "total" w) (cmAdd (cmAdd r s w) "total" w) := by
  have c1 : User.trans_fields.contains s = true := by simpa using h1
  have c2 : User.review_fields.contains s = true := by simpa using h2
  simp only [VEntry.addState, c1, c2, if_true]

/-! ### Counter-invariant lemmas -/

theorem sum_map_cmAdd_of_ne (others : List String) (c : CounterMap) (k : String)
    (w : Nat) (h : k ∉ others) :
    (others.map (cmGet (cmAdd c k w))).sum = (others.map (cmGet c)).sum := by
  induction others with
  | nil => rfl
  | cons f rest ih =>
      have hf : f ≠ k := fun hc => h (by simp [hc])
      have hr : k ∉ rest := fun hc => h (by simp [hc])
      simp only [List.map_cons, List.sum_cons, cmGet_cmAdd_ne _ _ hf, ih hr]

theorem sum_map_cmAdd_of_mem (others : List String) (c : CounterMap) (k : String)
    (w : Nat) (hm : k ∈ others) (hnd : others.Nodup) :
    (others.map (cmGet (cmAdd c k w))).sum = (others.map (cmGet c)).sum + w := by
  induction others with
  | nil => simp at hm
  | cons f rest ih =>
      rcases List.mem_cons.mp hm with hf | hr
      · have hk : k ∉ rest := by
          rw [hf]
          exact (List.nodup_cons.mp hnd).1
        rw [List.map_cons, List.sum_cons, List.map_cons, List.sum_cons, ← hf,
          cmGet_cmAdd_self, sum_map_cmAdd_of_ne rest c k w hk]
        omega
      · have hf : f ≠ k := by
          intro hc
          subst hc
          exact (List.nodup_cons.mp hnd).1 hr
        simp only [List.map_cons, List.sum_cons, cmGet_cmAdd_ne _ _ hf,
          ih hr (List.nodup_cons.mp hnd).2]
        omega

theorem counterInv_iff (fields : List String) (c : CounterMap) :
    counterInv fields c = true ↔
      cmGet c "total" = ((fields.filter (fun f => f != "total")).map (cmGet c)).sum := by
  simp [counterInv]

theorem counterInv_cmAdd (fields : List String) (c : CounterMap) (s : String) (w : Nat)
    (hmem : s ∈ fields) (hs : s ≠ "total")
    (hnd : (fields.filter (fun f => f != "total")).Nodup)
    (hinv : counterInv fields c = true) :
    counterInv fields (cmAdd (cmAdd c s w) "total" w) = true := by
  rw [counterInv_iff] at hinv ⊢
  have hsmem : s ∈ fields.filter (fun f => f != "total") := by
    simp [List.mem_filter, hmem, hs]
  have htot : "total" ∉ fields.filter (fun f => f != "total") := by
    simp [List.mem_filter]
  rw [cmGet_cmAdd_self, cmGet_cmAdd_ne _ _ (Ne.symm hs),
    sum_map_cmAdd_of_ne _ _ _ _ htot, sum_map_cmAdd_of_mem _ _ _ _ hsmem hnd, hinv]

theorem entryInv_empty : entryInv (VEntry.bucket [] []) = true := by decide

theorem entryInv_addState (e : VEntry) (s : String) (w : Nat) (hs : s ≠ "total")
    (he : entryInv e = true) : entryInv (e.addState s w) = true := by
  cases e with
  | bare c => exact he
  | bucket t r =>
      rw [entryInv, Bool.and_eq_true] at he
      obtain ⟨ht, hr⟩ := he
      rw [VEntry.addState]
      by_cases c1 : User.trans_fields.contains s = true
      all_goals by_cases c2 : User.review_fields.contains s = true
      all_goals simp only [c1, c2, if_true, if_false,
        Bool.false_eq_true, entryInv, Bool.and_eq_true]
      · exact ⟨counterInv_cmAdd _ _ _ _ (by simpa using c1) hs (by decide) ht,
          counterInv_cmAdd _ _ _ _ (by simpa using c2) hs (by decide) hr⟩
      · exact ⟨counterInv_cmAdd _ _ _ _ (by simpa using c1) hs (by decide) ht, hr⟩
      · exact ⟨ht, counterInv_cmAdd _ _ _ _ (by simpa using c2) hs (by decide) hr⟩
      · exact ⟨ht, hr⟩

theorem bucketsInv_iff (u : User) :
    bucketsInv u = true ↔ ∀ pv ∈ u.stats, ∀ ve ∈ pv.2, entryInv ve.2 = true := by
  simp [bucketsInv, List.all_eq_true]

theorem bucketsInv_lookup (u : User) (p : String) (h : bucketsInv u = true) :
    ∀ ve ∈ (u.stats.lookup p).getD [], entryInv ve.2 = true := by
  cases hl : u.stats.lookup p with
  | none => simp
  | some vs0 =>
      intro ve hve
      exact (bucketsInv_iff u).mp h (p, vs0) (lookup_mem hl) ve hve

theorem bucketsInv_process (u : User) (ws : WeblateStat)
    (hs : ws.savedState ≠ "total") (h : bucketsInv u = true) :
    bucketsInv (u.process_stat ws) = true := by
  obtain ⟨vs1, hstats, hvs1⟩ := process_stat_stats u ws
  have hvs1inv : ∀ ve ∈ vs1, entryInv ve.2 = true := by
    intro ve hve
    rcases hvs1 ve hve with hm | he
    · exact bucketsInv_lookup u ws.projectSlug h ve hm
    · rw [he]
      exact entryInv_empty
  rw [bucketsInv_iff]
  intro pv hpv
  rw [hstats] at hpv
  rcases mem_dictSet hpv with hm | he
  · exact (bucketsInv_iff u).mp h pv hm
  · rw [he]
    intro ve hve
    rcases mem_dictSet hve with hm2 | he2
    · exact hvs1inv ve hm2
    · rw [he2]
      refine entryInv_addState _ _ _ hs ?_
      cases hl : vs1.lookup ws.versionSlug with
      | none => exact entryInv_empty
      | some e0 =>
          simp only [Option.getD_some]
          exact hvs1inv (ws.versionSlug, e0) (lookup_mem hl)

theorem bucketsInv_foldOne (u : User) (ws : WeblateStat) (ps vs : List String)
    (hs : ws.savedState ≠ "total") (h : bucketsInv u = true) :
    bucketsInv (u.foldOne ws ps vs) = true := by
  rw [User.foldOne]
  split_ifs with t1 t2 t3
  · exact h
  · exact h
  · exact h
  · exact bucketsInv_process u ws hs h

theorem bucketsInv_read (u : User) (recs : List WeblateStat) (ps vs : List String)
    (hs : ∀ r ∈ recs, r.savedState ≠ "total") (h : bucketsInv u = true) :
    bucketsInv (u.read_from_weblate_stats recs ps vs) = true := by
  rw [User.read_from_weblate_stats]
  induction recs generalizing u with
  | nil => exact h
  | cons r rest ih =>
      exact ih (u.foldOne r ps vs)
        (fun x hx => hs x (List.mem_cons_of_mem r hx))
        (bucketsInv_foldOne u r ps vs (hs r (List.mem_cons_self r rest)) h)

theorem entryInv_bare (c : CounterMap) : entryInv (VEntry.bare c) = true := rfl


theorem cmGet_nil (k : String) : cmGet [] k = 0 := rfl

theorem counterValue_process_shared (u : User) (ws : WeblateStat)
    (h1 : ws.savedState ∈ User.trans_fields) (h2 : ws.savedState ∈ User.review_fields)
    (hs : ws.savedState ≠ "total")
    (hb : entryIsBucketLike u ws.projectSlug ws.versionSlug = true) :
    counterValue (u.process_stat ws) ws.projectSlug ws.versionSlug .translation
        ws.savedState =
      counterValue u ws.projectSlug ws.versionSlug .translation ws.savedState +
        ws.wordCount ∧
    counterValue (u.process_stat ws) ws.projectSlug ws.versionSlug .translation
        "total" =
      counterValue u ws.projectSlug ws.versionSlug .translation "total" +
        ws.wordCount ∧
    counterValue (u.process_stat ws) ws.projectSlug ws.versionSlug .review
        ws.savedState =
      counterValue u ws.projectSlug ws.versionSlug .review ws.savedState +
        ws.wordCount ∧
    counterValue (u.process_stat ws) ws.projectSlug ws.versionSlug .review "total" =
      counterValue u ws.projectSlug ws.versionSlug .review "total" + ws.wordCount := by
  rw [entryIsBucketLike] at hb
  simp only [counterValue]
  rw [statEntry_process_self]
  rcases he : statEntry u ws.projectSlug ws.versionSlug with _ | e
  · simp only [Option.getD_none, Option.getD_some, addState_shared _ _ _ _ h1 h2,
      getTransStats, getReviewStats]
    refine ⟨?_, ?_, ?_, ?_⟩
    · rw [cmGet_cmAdd_ne _ _ hs, cmGet_cmAdd_self]
    · rw [cmGet_cmAdd_self, cmGet_cmAdd_ne _ _ (Ne.symm hs)]
    · rw [cmGet_cmAdd_ne _ _ hs, cmGet_cmAdd_self]
    · rw [cmGet_cmAdd_self, cmGet_cmAdd_ne _ _ (Ne.symm hs)]
  · rw [statEntry] at he
    rw [he] at hb
    cases e with
    | bare c => simp at hb
    | bucket t r =>
        simp only [Option.getD_some, addState_shared _ _ _ _ h1 h2,
          getTransStats, getReviewStats]
        refine ⟨?_, ?_, ?_, ?_⟩
        · rw [cmGet_cmAdd_ne _ _ hs, cmGet_cmAdd_self]
        · rw [cmGet_cmAdd_self, cmGet_cmAdd_ne _ _ (Ne.symm hs)]
        · rw [cmGet_cmAdd_ne _ _ hs, cmGet_cmAdd_self]
        · rw [cmGet_cmAdd_self, cmGet_cmAdd_ne _ _ (Ne.symm hs)]

/-! ### Totals-bucket lemmas -/

theorem sum_g_dictSet_present {β : Type} {m : List (String × β)} {k : String}
    {w : β} (hk : m.lookup k = some w) (v : β) (g : β → Nat) :
    ((dictSet m k v).map (fun p => g p.2)).sum + g w =
      (m.map (fun p => g p.2)).sum + g v := by
  induction m with
  | nil => simp [List.lookup] at hk
  | cons p rest ih =>
      obtain ⟨a, b⟩ := p
      by_cases h : a = k
      · subst h
        rw [lookup_cons_self] at hk
        cases hk
        rw [dictSet_cons_pos rfl]
        simp only [List.map_cons, List.sum_cons]
        omega
      · rw [lookup_cons_ne _ _ (fun hc => h hc.symm)] at hk
        rw [dictSet_cons_neg h]
        simp only [List.map_cons, List.sum_cons]
        have := ih hk
        omega

theorem sum_g_dictSet_absent {β : Type} {m : List (String × β)} {k : String}
    (hk : m.lookup k = none) (v : β) (g : β → Nat) :
    ((dictSet m k v).map (fun p => g p.2)).sum =
      (m.map (fun p => g p.2)).sum + g v := by
  induction m with
  | nil =>
      rw [dictSet_nil]
      simp [Nat.add_comm]
  | cons p rest ih =>
      obtain ⟨a, b⟩ := p
      by_cases h : a = k
      · subst h
        rw [lookup_cons_self] at hk
        cases hk
      · rw [lookup_cons_ne _ _ (fun hc => h hc.symm)] at hk
        rw [dictSet_cons_neg h]
        simp only [List.map_cons, List.sum_cons]
        have := ih hk
        omega

theorem sumStats_setTotals (s : StatsMap) (key : String) (c : CounterMap)
    (f : VEntry → CounterMap) (hf : ∀ cc, f (VEntry.bare cc) = []) (k : String)
    (hold : ∀ e, ((s.lookup "__total__").getD []).lookup key = some e →
      isBare e = true) :
    sumStats (setTotals s key c) f k = sumStats s f k := by
  have hbare : cmGet (f (VEntry.bare c)) k = 0 := by rw [hf, cmGet_nil]
  have hinner :
      ((dictSet ((s.lookup "__total__").getD []) key (VEntry.bare c)).map
          (fun p => cmGet (f p.2) k)).sum =
        (((s.lookup "__total__").getD []).map (fun p => cmGet (f p.2) k)).sum := by
    rcases hk : ((s.lookup "__total__").getD []).lookup key with _ | e
    · rw [sum_g_dictSet_absent hk (VEntry.bare c) (fun e => cmGet (f e) k)]
      simp only [hbare, Nat.add_zero]
    · have h0 := sum_g_dictSet_present hk (VEntry.bare c) (fun e => cmGet (f e) k)
      have hb := hold e hk
      have he0 : cmGet (f e) k = 0 := by
        cases e with
        | bare cc => rw [hf, cmGet_nil]
        | bucket t r => simp [isBare] at hb
      simp only [hbare, he0, Nat.add_zero] at h0
      exact h0
  rw [setTotals, sumStats, sumStats]
  rcases ht : s.lookup "__total__" with _ | vs0
  · simp only [Option.getD_none]
    have h0 :
        ((dictSet s "__total__" (dictSet ([] : VersionMap) key (VEntry.bare c))).map
            (fun pv => (pv.2.map (fun ve => cmGet (f ve.2) k)).sum)).sum =
          (s.map (fun pv => (pv.2.map (fun ve => cmGet (f ve.2) k)).sum)).sum +
            ((dictSet ([] : VersionMap) key (VEntry.bare c)).map
              (fun ve => cmGet (f ve.2) k)).sum :=
      sum_g_dictSet_absent ht (dictSet ([] : VersionMap) key (VEntry.bare c))
        (fun vs => (vs.map (fun ve => cmGet (f ve.2) k)).sum)
    rw [h0]
    simp [dictSet_nil, hbare]
  · simp only [Option.getD_some]
    have h0 :
        ((dictSet s "__total__" (dictSet vs0 key (VEntry.bare c))).map
            (fun pv => (pv.2.map (fun ve => cmGet (f ve.2) k)).sum)).sum +
          (vs0.map (fun ve => cmGet (f ve.2) k)).sum =
          (s.map (fun pv => (pv.2.map (fun ve => cmGet (f ve.2) k)).sum)).sum +
            ((dictSet vs0 key (VEntry.bare c)).map (fun ve => cmGet (f ve.2) k)).sum :=
      sum_g_dictSet_present ht (dictSet vs0 key (VEntry.bare c))
        (fun vs => (vs.map (fun ve => cmGet (f ve.2) k)).sum)
    rw [ht] at hinner
    simp only [Option.getD_some] at hinner
    omega

theorem lookup_setTotals (s : StatsMap) (key : String) (c : CounterMap) :
    (setTotals s key c).lookup "__total__" =
      some (dictSet ((s.lookup "__total__").getD []) key (VEntry.bare c)) := by
  rw [setTotals]
  exact lookup_dictSet_self _ _ _

theorem setTotals_already (s : StatsMap) (key : String) (c : CounterMap)
    {vs : VersionMap} (hvs : s.lookup "__total__" = some vs)
    (hkey : vs.lookup key = some (VEntry.bare c)) : setTotals s key c = s := by
  rw [setTotals, hvs]
  simp only [Option.getD_some]
  rw [dictSet_eq_self hkey, dictSet_eq_self hvs]

theorem noTotalCollision_elim (u : User) (h : noTotalCollision u = true) :
    (∀ e, ((u.stats.lookup "__total__").getD []).lookup "translation-stats" = some e →
      isBare e = true) ∧
    (∀ e, ((u.stats.lookup "__total__").getD []).lookup "review-stats" = some e →
      isBare e = true) := by
  rw [noTotalCollision] at h
  simp only [Bool.and_eq_true] at h
  refine ⟨fun e he => ?_, fun e he => ?_⟩
  · have h1 := h.1
    rw [he] at h1
    exact h1
  · have h2 := h.2
    rw [he] at h2
    exact h2

theorem setTotals_noCol (s : StatsMap) (key key2 : String) (c : CounterMap)
    (hne : key2 ≠ key)
    (hold : ∀ e, ((s.lookup "__total__").getD []).lookup key2 = some e →
      isBare e = true) :
    ∀ e, (((setTotals s key c).lookup "__total__").getD []).lookup key2 = some e →
      isBare e = true := by
  intro e he
  rw [lookup_setTotals] at he
  simp only [Option.getD_some] at he
  rw [lookup_dictSet_ne _ _ hne] at he
  exact hold e he

theorem setTotals_setTotals_already (s : StatsMap) (c1 c2 : CounterMap) :
    setTotals (setTotals
        (setTotals (setTotals s "translation-stats" c1) "review-stats" c2)
        "translation-stats" c1) "review-stats" c2 =
      setTotals (setTotals s "translation-stats" c1) "review-stats" c2 := by
  have hvs2 : (setTotals (setTotals s "translation-stats" c1) "review-stats"
        c2).lookup "__total__" =
      some (dictSet (dictSet ((s.lookup "__total__").getD []) "translation-stats"
        (VEntry.bare c1)) "review-stats" (VEntry.bare c2)) := by
    rw [lookup_setTotals, lookup_setTotals]
    simp only [Option.getD_some]
  have hts : (dictSet (dictSet ((s.lookup "__total__").getD []) "translation-stats"
        (VEntry.bare c1)) "review-stats" (VEntry.bare c2)).lookup
        "translation-stats" = some (VEntry.bare c1) := by
    rw [lookup_dictSet_ne _ _
      (by decide : ("translation-stats" : String) ≠ "review-stats")]
    exact lookup_dictSet_self _ _ _
  have hrs : (dictSet (dictSet ((s.lookup "__total__").getD []) "translation-stats"
        (VEntry.bare c1)) "review-stats" (VEntry.bare c2)).lookup "review-stats" =
      some (VEntry.bare c2) := lookup_dictSet_self _ _ _
  rw [setTotals_already _ _ _ hvs2 hts, setTotals_already _ _ _ hvs2 hrs]

theorem populate_idem (u : User) (hcol : noTotalCollision u = true) :
    u.populate_total_stats.populate_total_stats = u.populate_total_stats := by
  obtain ⟨hold1, hold2⟩ := noTotalCollision_elim u hcol
  have hsum : ∀ f : VEntry → CounterMap, (∀ cc, f (VEntry.bare cc) = []) → ∀ k,
      sumStats (u.populate_total_stats).stats f k = sumStats u.stats f k := by
    intro f hf k
    have h2 : (u.populate_total_stats).stats =
        setTotals (setTotals u.stats "translation-stats"
          (totalsOf u.stats getTransStats User.trans_fields)) "review-stats"
          (totalsOf u.stats getReviewStats User.review_fields) := rfl
    rw [h2]
    rw [sumStats_setTotals _ _ _ f hf k
      (setTotals_noCol u.stats "translation-stats" "review-stats" _
        (by decide) hold2)]
    exact sumStats_setTotals _ _ _ f hf k hold1
  have htt : totalsOf (u.populate_total_stats).stats getTransStats
      User.trans_fields = totalsOf u.stats getTransStats User.trans_fields := by
    rw [totalsOf, totalsOf]
    refine List.map_congr_left (fun k _ => ?_)
    rw [hsum getTransStats (fun cc => rfl) k]
  have htr : totalsOf (u.populate_total_stats).stats getReviewStats
      User.review_fields = totalsOf u.stats getReviewStats User.review_fields := by
    rw [totalsOf, totalsOf]
    refine List.map_congr_left (fun k _ => ?_)
    rw [hsum getReviewStats (fun cc => rfl) k]
  show User.mk (u.populate_total_stats).user_id (u.populate_total_stats).lang
      (setTotals (setTotals (u.populate_total_stats).stats "translation-stats"
        (totalsOf (u.populate_total_stats).stats getTransStats User.trans_fields))
        "review-stats"
        (totalsOf (u.populate_total_stats).stats getReviewStats
          User.review_fields)) = u.populate_total_stats
  rw [htt, htr]
  rw [show (u.populate_total_stats).stats =
      setTotals (setTotals u.stats "translation-stats"
        (totalsOf u.stats getTransStats User.trans_fields)) "review-stats"
        (totalsOf u.stats getReviewStats User.review_fields) from rfl]
  rw [setTotals_setTotals_already u.stats
    (totalsOf u.stats getTransStats User.trans_fields)
    (totalsOf u.stats getReviewStats User.review_fields)]
  rfl

theorem entryInv_all_setTotals (s : StatsMap) (key : String) (c : CounterMap)
    (h : ∀ pv ∈ s, ∀ ve ∈ pv.2, entryInv ve.2 = true) :
    ∀ pv ∈ setTotals s key c, ∀ ve ∈ pv.2, entryInv ve.2 = true := by
  intro pv hpv ve hve
  rw [setTotals] at hpv
  rcases mem_dictSet hpv with hm | he
  · exact h pv hm ve hve
  · rw [he] at hve
    rcases mem_dictSet hve with hm2 | he2
    · rcases ht : s.lookup "__total__" with _ | vs0
      · rw [ht] at hm2
        simp at hm2
      · rw [ht] at hm2
        simp only [Option.getD_some] at hm2
        exact h _ (lookup_mem ht) ve hm2
    · rw [he2]
      exact entryInv_bare c

theorem bucketsInv_populate (u : User) (h : bucketsInv u = true) :
    bucketsInv u.populate_total_stats = true := by
  rw [bucketsInv_iff] at h ⊢
  have h2 : (u.populate_total_stats).stats =
      setTotals (setTotals u.stats "translation-stats"
        (totalsOf u.stats getTransStats User.trans_fields)) "review-stats"
        (totalsOf u.stats getReviewStats User.review_fields) := rfl
  rw [h2]
  exact entryInv_all_setTotals _ _ _ (entryInv_all_setTotals _ _ _ h)

theorem totalCounter_setTotals_ts (s : StatsMap) (c1 c2 : CounterMap) :
    totalCounter (setTotals (setTotals s "translation-stats" c1) "review-stats" c2)
      "translation-stats" = c1 := by
  have hl : (((setTotals (setTotals s "translation-stats" c1) "review-stats"
        c2).lookup "__total__").getD []).lookup "translation-stats" =
      some (VEntry.bare c1) := by
    rw [lookup_setTotals, lookup_setTotals]
    simp only [Option.getD_some]
    rw [lookup_dictSet_ne _ _
      (by decide : ("translation-stats" : String) ≠ "review-stats")]
    exact lookup_dictSet_self _ _ _
  simp only [totalCounter, hl, asCounterMap]

theorem totalCounter_setTotals_rs (s : StatsMap) (c1 c2 : CounterMap) :
    totalCounter (setTotals (setTotals s "translation-stats" c1) "review-stats" c2)
      "review-stats" = c2 := by
  have hl : (((setTotals (setTotals s "translation-stats" c1) "review-stats"
        c2).lookup "__total__").getD []).lookup "review-stats" =
      some (VEntry.bare c2) := by
    rw [lookup_setTotals, lookup_setTotals]
    simp only [Option.getD_some]
    exact lookup_dictSet_self _ _ _
  simp only [totalCounter, hl, asCounterMap]

theorem cmGet_totalsOf (s : StatsMap) (f : VEntry → CounterMap)
    (fields : List String) (k : String) (hk : k ∈ fields) :
    cmGet (totalsOf s f fields) k = sumStats s f k := by
  rw [totalsOf, cmGet]
  induction fields with
  | nil => simp at hk
  | cons a rest ih =>
      by_cases hka : k = a
      · subst hka
        rw [List.map_cons, lookup_cons_self, Option.getD_some]
      · have hr : k ∈ rest := by
          rcases List.mem_cons.mp hk with h | h
          · exact absurd h hka
          · exact h
        rw [List.map_cons, lookup_cons_ne _ _ hka]
        exact ih hr

theorem sum_map_zero {α : Type} (l : List α) : (l.map (fun _ => (0 : Nat))).sum = 0 := by
  induction l with
  | nil => rfl
  | cons a l ih => simp [ih]

theorem sum_swap {α : Type} (l : List α) (fs : List String) (h : α → String → Nat) :
    (l.map (fun a => (fs.map (h a)).sum)).sum =
      (fs.map (fun k => (l.map (fun a => h a k)).sum)).sum := by
  induction l with
  | nil => simp [sum_map_zero]
  | cons a l ih =>
      simp only [List.map_cons, List.sum_cons]
      rw [ih, ← List.sum_map_add]

theorem sumStats_total_eq (s : StatsMap) (f : VEntry → CounterMap)
    (fields : List String)
    (hent : ∀ pv ∈ s, ∀ ve ∈ pv.2, cmGet (f ve.2) "total" =
      ((fields.filter (fun x => x != "total")).map (cmGet (f ve.2))).sum) :
    sumStats s f "total" =
      ((fields.filter (fun x => x != "total")).map
        (fun k => sumStats s f k)).sum := by
  rw [sumStats]
  have h1 : (s.map (fun pv => (pv.2.map (fun ve => cmGet (f ve.2) "total")).sum)).sum
      = (s.map (fun pv => ((fields.filter (fun x => x != "total")).map
          (fun k => (pv.2.map (fun ve => cmGet (f ve.2) k)).sum)).sum)).sum := by
    refine congrArg List.sum (List.map_congr_left (fun pv hpv => ?_))
    have h2 : (pv.2.map (fun ve => cmGet (f ve.2) "total")).sum =
        (pv.2.map (fun ve => ((fields.filter (fun x => x != "total")).map
          (cmGet (f ve.2))).sum)).sum :=
      congrArg List.sum (List.map_congr_left (fun ve hve => hent pv hpv ve hve))
    rw [h2]
    exact sum_swap pv.2 _ (fun ve k => cmGet (f ve.2) k)
  rw [h1]
  rw [sum_swap s _ (fun pv k => (pv.2.map (fun ve => cmGet (f ve.2) k)).sum)]
  rfl

theorem entry_total_trans (u : User) (h : bucketsInv u = true) :
    ∀ pv ∈ u.stats, ∀ ve ∈ pv.2, cmGet (getTransStats ve.2) "total" =
      ((User.trans_fields.filter (fun x => x != "total")).map
        (cmGet (getTransStats ve.2))).sum := by
  intro pv hpv ve hve
  have he := (bucketsInv_iff u).mp h pv hpv ve hve
  cases hve2 : ve.2 with
  | bucket t r =>
      rw [hve2] at he
      simp only [entryInv, Bool.and_eq_true] at he
      exact (counterInv_iff _ _).mp he.1
  | bare c =>
      simp only [getTransStats, cmGet_nil]
      have hz : ((User.trans_fields.filter (fun x => x != "total")).map
          (cmGet ([] : CounterMap))).sum =
          ((User.trans_fields.filter (fun x => x != "total")).map
            (fun _ => (0 : Nat))).sum :=
        congrArg List.sum (List.map_congr_left (fun k _ => cmGet_nil k))
      rw [hz, sum_map_zero]

theorem entry_total_review (u : User) (h : bucketsInv u = true) :
    ∀ pv ∈ u.stats, ∀ ve ∈ pv.2, cmGet (getReviewStats ve.2) "total" =
      ((User.review_fields.filter (fun x => x != "total")).map
        (cmGet (getReviewStats ve.2))).sum := by
  intro pv hpv ve hve
  have he := (bucketsInv_iff u).mp h pv hpv ve hve
  cases hve2 : ve.2 with
  | bucket t r =>
      rw [hve2] at he
      simp only [entryInv, Bool.and_eq_true] at he
      exact (counterInv_iff _ _).mp he.2
  | bare c =>
      simp only [getReviewStats, cmGet_nil]
      have hz : ((User.review_fields.filter (fun x => x != "total")).map
          (cmGet ([] : CounterMap))).sum =
          ((User.review_fields.filter (fun x => x != "total")).map
            (fun _ => (0 : Nat))).sum :=
        congrArg List.sum (List.map_congr_left (fun k _ => cmGet_nil k))
      rw [hz, sum_map_zero]

theorem counterInv_totalsOf (u : User) (f : VEntry → CounterMap)
    (fields : List String) (htot : "total" ∈ fields)
    (hother : ∀ k ∈ fields.filter (fun x => x != "total"), k ∈ fields)
    (hent : ∀ pv ∈ u.stats, ∀ ve ∈ pv.2, cmGet (f ve.2) "total" =
      ((fields.filter (fun x => x != "total")).map (cmGet (f ve.2))).sum) :
    counterInv fields (totalsOf u.stats f fields) = true := by
  rw [counterInv_iff]
  rw [cmGet_totalsOf _ _ _ "total" htot]
  have hmap : ((fields.filter (fun x => x != "total")).map
      (cmGet (totalsOf u.stats f fields))).sum =
      ((fields.filter (fun x => x != "total")).map
        (fun k => sumStats u.stats f k)).sum :=
    congrArg List.sum (List.map_congr_left
      (fun k hk => cmGet_totalsOf u.stats f fields k (hother k hk)))
  rw [hmap]
  exact sumStats_total_eq u.stats f fields hent

theorem totalBucketInv_populate (u : User) (h : bucketsInv u = true) :
    totalBucketInv u.populate_total_stats = true := by
  rw [totalBucketInv, Bool.and_eq_true]
  have h2 : (u.populate_total_stats).stats =
      setTotals (setTotals u.stats "translation-stats"
        (totalsOf u.stats getTransStats User.trans_fields)) "review-stats"
        (totalsOf u.stats getReviewStats User.review_fields) := rfl
  rw [h2, totalCounter_setTotals_ts, totalCounter_setTotals_rs]
  constructor
  · exact counterInv_totalsOf u getTransStats User.trans_fields (by decide)
      (fun k hk => (List.mem_filter.mp hk).1) (entry_total_trans u h)
  · exact counterInv_totalsOf u getReviewStats User.review_fields (by decide)
      (fun k hk => (List.mem_filter.mp hk).1) (entry_total_review u h)

/-! ### Sort-order lemmas -/

theorem userSortLe_iff (a b : User) :
    userSortLe a b = true ↔
      (a.lang < b.lang ∨ (a.lang = b.lang ∧ a.user_id ≤ b.user_id)) := by
  rw [userSortLe, User.lt]
  by_cases h : b.lang = a.lang
  · have hb : (b.lang != a.lang) = false := by simp [h]
    rw [hb]
    simp only [Bool.false_eq_true, if_false, Bool.not_eq_true',
      decide_eq_false_iff_not, not_lt]
    constructor
    · intro hle
      exact Or.inr ⟨h.symm, hle⟩
    · rintro (hlt | ⟨heq, hle⟩)
      · rw [h] at hlt
        exact absurd hlt (lt_irrefl _)
      · exact hle
  · have hb : (b.lang != a.lang) = true := by simp [h]
    rw [hb]
    simp only [if_true, Bool.not_eq_true', decide_eq_false_iff_not, not_lt]
    constructor
    · intro hle
      exact Or.inl (lt_of_le_of_ne hle (fun hc => h hc.symm))
    · rintro (hlt | ⟨heq, hle⟩)
      · exact le_of_lt hlt
      · exact absurd heq.symm h

theorem userSortLe_trans (a b c : User) (hab : userSortLe a b = true)
    (hbc : userSortLe b c = true) : userSortLe a c = true := by
  rw [userSortLe_iff] at hab hbc ⊢
  rcases hab with h1 | ⟨h1, h2⟩ <;> rcases hbc with h3 | ⟨h3, h4⟩
  · exact Or.inl (lt_trans h1 h3)
  · exact Or.inl (h3 ▸ h1)
  · exact Or.inl (h1.symm ▸ h3)
  · exact Or.inr ⟨h1.trans h3, le_trans h2 h4⟩

theorem userSortLe_total (a b : User) :
    (userSortLe a b || userSortLe b a) = true := by
  rw [Bool.or_eq_true, userSortLe_iff, userSortLe_iff]
  rcases lt_trichotomy a.lang b.lang with h | h | h
  · exact Or.inl (Or.inl h)
  · rcases le_total a.user_id b.user_id with h2 | h2
    · exact Or.inl (Or.inr ⟨h, h2⟩)
    · exact Or.inr (Or.inr ⟨h.symm, h2⟩)
  · exact Or.inr (Or.inl h)

/-! ### Claim theorems -/

/-- C1 counterexample: in the spec's end-to-end scenario the claimed totals
(translation-stats total 100 with Approved 0) and the claimed CSV row
`1001,ko,-,-,100,100,0,0,0,20,20,0` are NOT what the code produces: the
record with state `"Approved"` is also counted in the translation counter
set, because `"Approved"` is a member of `User.trans_fields`. -/
theorem c1_counterexample :
    ¬(cmGet (totalCounter (scenarioUser.populate_total_stats).stats
          "translation-stats") "Translated" = 100 ∧
      cmGet (totalCounter (scenarioUser.populate_total_stats).stats
          "translation-stats") "total" = 100 ∧
      cmGet (totalCounter (scenarioUser.populate_total_stats).stats
          "translation-stats") "NeedReview" = 0 ∧
      cmGet (totalCounter (scenarioUser.populate_total_stats).stats
          "translation-stats") "Approved" = 0 ∧
      cmGet (totalCounter (scenarioUser.populate_total_stats).stats
          "translation-stats") "Rejected" = 0 ∧
      cmGet (totalCounter (scenarioUser.populate_total_stats).stats
          "review-stats") "Approved" = 20 ∧
      cmGet (totalCounter (scenarioUser.populate_total_stats).stats
          "review-stats") "total" = 20 ∧
      cmGet (totalCounter (scenarioUser.populate_total_stats).stats
          "review-stats") "Rejected" = 0 ∧
      (scenarioUser.convert_to_flattened_data false).map csvLine =
        ["1001,ko,-,-,100,100,0,0,0,20,20,0"]) := by
  decide

/-- C1 (amended): in the end-to-end scenario the total bucket holds
translation-stats {Translated: 100, total: 120, NeedReview: 0, Approved: 20,
Rejected: 0} (the `"Approved"` record contributes to the translation set
too) and review-stats {Approved: 20, total: 20, Rejected: 0}, and the
non-detail CSV conversion yields exactly the one data row
`1001,ko,-,-,120,100,0,20,0,20,20,0`. -/
theorem c1_amended_thm :
    cmGet (totalCounter (scenarioUser.populate_total_stats).stats
        "translation-stats") "Translated" = 100 ∧
    cmGet (totalCounter (scenarioUser.populate_total_stats).stats
        "translation-stats") "total" = 120 ∧
    cmGet (totalCounter (scenarioUser.populate_total_stats).stats
        "translation-stats") "NeedReview" = 0 ∧
    cmGet (totalCounter (scenarioUser.populate_total_stats).stats
        "translation-stats") "Approved" = 20 ∧
    cmGet (totalCounter (scenarioUser.populate_total_stats).stats
        "translation-stats") "Rejected" = 0 ∧
    cmGet (totalCounter (scenarioUser.populate_total_stats).stats
        "review-stats") "Approved" = 20 ∧
    cmGet (totalCounter (scenarioUser.populate_total_stats).stats
        "review-stats") "total" = 20 ∧
    cmGet (totalCounter (scenarioUser.populate_total_stats).stats
        "review-stats") "Rejected" = 0 ∧
    (scenarioUser.convert_to_flattened_data false).map csvLine =
      ["1001,ko,-,-,120,100,0,20,0,20,20,0"] := by
  decide

/-- C2 counterexample: folding the single record
{project "i18n", version "master", locale "ko", state "total", wordCount 7}
breaks the claimed invariant: the literal label `"total"` is a member of
both field enums, so its word count is added twice to the `"total"` cell
(giving 14) while every other field stays 0. -/
theorem c2_counterexample :
    bucketsInv totalStateUser = false ∧
    counterValue totalStateUser "i18n" "master" .translation "total" = 14 ∧
    counterValue totalStateUser "i18n" "master" .translation "Translated" +
      counterValue totalStateUser "i18n" "master" .translation "NeedReview" +
      counterValue totalStateUser "i18n" "master" .translation "Approved" +
      counterValue totalStateUser "i18n" "master" .translation "Rejected" = 0 := by
  decide

/-- C2 (amended): for every User and every sequence of folded records none
of which carries the literal state label `"total"`, the `"total"` field of
each counter set of each `(project, version)` bucket equals the sum of the
set's other fields, and after `populate_total_stats` the same holds for the
recomputed total bucket. -/
theorem c2_amended_thm (uid lang : String) (u : User)
    (recs : List WeblateStat) (ps vs : List String) :
    bucketsInv (User.new uid lang) = true ∧
    (bucketsInv u = true → (∀ r ∈ recs, r.savedState ≠ "total") →
      bucketsInv (u.read_from_weblate_stats recs ps vs) = true) ∧
    (bucketsInv u = true →
      bucketsInv u.populate_total_stats = true ∧
      totalBucketInv u.populate_total_stats = true) := by
  refine ⟨rfl, fun h hr => bucketsInv_read u recs ps vs hr h, fun h =>
    ⟨bucketsInv_populate u h, totalBucketInv_populate u h⟩⟩

/-- C2 witness: the amended invariant evaluated on the end-to-end scenario. -/
theorem c2_witness :
    bucketsInv ((User.new "1001" "ko").read_from_weblate_stats
        [⟨"i18n", "master", "ko", "Translated", 100⟩,
         ⟨"i18n", "master", "ko", "Approved", 20⟩] [] []) = true ∧
    bucketsInv (User.mk "1001" "ko"
        [("i18n", [("master",
          VEntry.bucket [("Translated", 100), ("total", 120), ("Approved", 20)]
            [("Approved", 20), ("total", 20)])])]).populate_total_stats = true ∧
    totalBucketInv (User.mk "1001" "ko"
        [("i18n", [("master",
          VEntry.bucket [("Translated", 100), ("total", 120), ("Approved", 20)]
            [("Approved", 20), ("total", 20)])])]).populate_total_stats = true := by
  refine ⟨(c2_amended_thm "1001" "ko" (User.new "1001" "ko")
      [⟨"i18n", "master", "ko", "Translated", 100⟩,
       ⟨"i18n", "master", "ko", "Approved", 20⟩] [] []).2.1 (by decide) (by decide),
    ((c2_amended_thm "1001" "ko" (User.mk "1001" "ko"
        [("i18n", [("master",
          VEntry.bucket [("Translated", 100), ("total", 120), ("Approved", 20)]
            [("Approved", 20), ("total", 20)])])]) [] [] []).2.2 (by decide)).1,
    ((c2_amended_thm "1001" "ko" (User.mk "1001" "ko"
        [("i18n", [("master",
          VEntry.bucket [("Translated", 100), ("total", 120), ("Approved", 20)]
            [("Approved", 20), ("total", 20)])])]) [] [] []).2.2 (by decide)).2⟩

/-- C3: a record whose state label lies in both enums (other than the
reserved `"total"` cell itself, i.e. `"Approved"` or `"Rejected"`) that
passes all filters adds its word count to that state's counter and to the
total of the translation-stats set AND to that state's counter and the
total of the review-stats set of the same (project, version) bucket. -/
theorem c3_thm (u : User) (ws : WeblateStat) (ps vs : List String)
    (hns : ¬skipCond u ws ps vs)
    (h1 : ws.savedState ∈ User.trans_fields)
    (h2 : ws.savedState ∈ User.review_fields)
    (hs : ws.savedState ≠ "total")
    (hb : entryIsBucketLike u ws.projectSlug ws.versionSlug = true) :
    counterValue (u.foldOne ws ps vs) ws.projectSlug ws.versionSlug .translation
        ws.savedState =
      counterValue u ws.projectSlug ws.versionSlug .translation ws.savedState +
        ws.wordCount ∧
    counterValue (u.foldOne ws ps vs) ws.projectSlug ws.versionSlug .translation
        "total" =
      counterValue u ws.projectSlug ws.versionSlug .translation "total" +
        ws.wordCount ∧
    counterValue (u.foldOne ws ps vs) ws.projectSlug ws.versionSlug .review
        ws.savedState =
      counterValue u ws.projectSlug ws.versionSlug .review ws.savedState +
        ws.wordCount ∧
    counterValue (u.foldOne ws ps vs) ws.projectSlug ws.versionSlug .review
        "total" =
      counterValue u ws.projectSlug ws.versionSlug .review "total" +
        ws.wordCount := by
  rw [foldOne_not_skip u ws ps vs hns]
  exact counterValue_process_shared u ws h1 h2 hs hb

/-- C3 witness: an `"Approved"` record folded into a user that already has
a bucket for the record's (project, version). -/
theorem c3_witness :
    counterValue ((User.mk "1001" "ko"
        [("i18n", [("master", VEntry.bucket [("Translated", 100), ("total", 100)]
          [])])]).foldOne ⟨"i18n", "master", "ko", "Approved", 20⟩ [] [])
        "i18n" "master" .translation "Approved" =
      counterValue (User.mk "1001" "ko"
        [("i18n", [("master", VEntry.bucket [("Translated", 100), ("total", 100)]
          [])])]) "i18n" "master" .translation "Approved" + 20 ∧
    counterValue ((User.mk "1001" "ko"
        [("i18n", [("master", VEntry.bucket [("Translated", 100), ("total", 100)]
          [])])]).foldOne ⟨"i18n", "master", "ko", "Approved", 20⟩ [] [])
        "i18n" "master" .translation "total" =
      counterValue (User.mk "1001" "ko"
        [("i18n", [("master", VEntry.bucket [("Translated", 100), ("total", 100)]
          [])])]) "i18n" "master" .translation "total" + 20 ∧
    counterValue ((User.mk "1001" "ko"
        [("i18n", [("master", VEntry.bucket [("Translated", 100), ("total", 100)]
          [])])]).foldOne ⟨"i18n", "master", "ko", "Approved", 20⟩ [] [])
        "i18n" "master" .review "Approved" =
      counterValue (User.mk "1001" "ko"
        [("i18n", [("master", VEntry.bucket [("Translated", 100), ("total", 100)]
          [])])]) "i18n" "master" .review "Approved" + 20 ∧
    counterValue ((User.mk "1001" "ko"
        [("i18n", [("master", VEntry.bucket [("Translated", 100), ("total", 100)]
          [])])]).foldOne ⟨"i18n", "master", "ko", "Approved", 20⟩ [] [])
        "i18n" "master" .review "total" =
      counterValue (User.mk "1001" "ko"
        [("i18n", [("master", VEntry.bucket [("Translated", 100), ("total", 100)]
          [])])]) "i18n" "master" .review "total" + 20 :=
  c3_thm (User.mk "1001" "ko"
      [("i18n", [("master", VEntry.bucket [("Translated", 100), ("total", 100)]
        [])])]) ⟨"i18n", "master", "ko", "Approved", 20⟩ [] []
    (by decide) (by decide) (by decide) (by decide) (by decide)

/-- C4 counterexample: `populate_total_stats` is NOT idempotent for every
User state: after folding a record with projectSlug `"__total__"` and
versionSlug `"translation-stats"`, the first call replaces that real bucket
by a bare totals dict, so the second call recomputes different (zero)
totals. -/
theorem c4_counterexample :
    collisionUser.populate_total_stats.populate_total_stats ≠
      collisionUser.populate_total_stats := by
  decide

/-- C4 (amended): `populate_total_stats` is idempotent for every User state
in which the reserved `"__total__"` entry holds no bucket-shaped value
under the version keys `"translation-stats"` or `"review-stats"` — in
particular for every state produced by folding records whose projectSlug is
not the sentinel `"__total__"`. -/
theorem c4_amended_thm (u : User) (hcol : noTotalCollision u = true) :
    u.populate_total_stats.populate_total_stats = u.populate_total_stats :=
  populate_idem u hcol

/-- C4 witness: idempotence on the end-to-end scenario user. -/
theorem c4_witness :
    noTotalCollision (User.mk "1001" "ko"
        [("i18n", [("master",
          VEntry.bucket [("Translated", 100), ("total", 100)] [])])]) = true ∧
    (User.mk "1001" "ko"
        [("i18n", [("master",
          VEntry.bucket [("Translated", 100), ("total", 100)]
            [])])]).populate_total_stats.populate_total_stats =
      (User.mk "1001" "ko"
        [("i18n", [("master",
          VEntry.bucket [("Translated", 100), ("total", 100)]
            [])])]).populate_total_stats :=
  ⟨by decide, c4_amended_thm (User.mk "1001" "ko"
      [("i18n", [("master",
        VEntry.bucket [("Translated", 100), ("total", 100)] [])])]) (by decide)⟩

/-- C5: `needs_output true` is unconditionally true; a freshly constructed
User yields false for `needs_output false`; and for every User whose stats
mapping is well-formed (`GoodStats`, which holds for the fresh state and is
preserved by every fold), `needs_output false` is true exactly when at
least one (project, version) bucket is recorded. -/
theorem c5_thm (u : User) (uid lang : String) (recs : List WeblateStat)
    (ps vs : List String) :
    u.needs_output true = true ∧
    (User.new uid lang).needs_output false = false ∧
    GoodStats (User.new uid lang) = true ∧
    (GoodStats u = true → GoodStats (u.read_from_weblate_stats recs ps vs) = true) ∧
    (GoodStats u = true →
      (u.needs_output false = true ↔ ∃ pv ∈ u.stats, pv.2 ≠ [])) := by
  refine ⟨rfl, rfl, rfl, goodStats_read u recs ps vs, fun hg => ?_⟩
  have hdef : u.needs_output false =
      (!u.stats.isEmpty && u.stats.all fun pv => !pv.2.isEmpty) := rfl
  rw [hdef, Bool.and_eq_true]
  constructor
  · rintro ⟨h1, h2⟩
    rcases hlist : u.stats with _ | ⟨pv, rest⟩
    · rw [hlist] at h1
      simp at h1
    · have hmem : pv ∈ u.stats := by
        rw [hlist]
        exact List.mem_cons_self pv rest
      refine ⟨pv, List.mem_cons_self pv rest, ?_⟩
      have hh := List.all_eq_true.mp h2 pv hmem
      simpa [List.isEmpty_eq_false] using hh
  · rintro ⟨pv, hpv, hne⟩
    refine ⟨?_, hg⟩
    have : u.stats ≠ [] := List.ne_nil_of_mem hpv
    simp [List.isEmpty_eq_false, this]

/-- C5 witness: the characterization applied to a user holding one bucket. -/
theorem c5_witness :
    GoodStats (User.mk "1001" "ko"
      [("i18n", [("master", VEntry.bucket [] [])])]) = true ∧
    ((User.mk "1001" "ko"
        [("i18n", [("master", VEntry.bucket [] [])])]).needs_output false = true ↔
      ∃ pv ∈ (User.mk "1001" "ko"
        [("i18n", [("master", VEntry.bucket [] [])])]).stats, pv.2 ≠ []) :=
  ⟨by decide, (c5_thm (User.mk "1001" "ko"
      [("i18n", [("master", VEntry.bucket [] [])])]) "x" "y" [] [] []).2.2.2.2
    (by decide)⟩

/-- C6: one record of a folded batch is skipped (leaving the User
untouched) exactly under the spec's condition — non-empty project filter
missing the record's project, or non-empty version filter missing its
version, or locale differing from the User's language (so empty filters
admit everything); otherwise the record is processed into the stats
mapping. -/
theorem c6_thm (u : User) (ws : WeblateStat) (ps vs : List String) :
    (skipCond u ws ps vs → u.foldOne ws ps vs = u) ∧
    (¬skipCond u ws ps vs → u.foldOne ws ps vs = u.process_stat ws) :=
  ⟨foldOne_skip u ws ps vs, foldOne_not_skip u ws ps vs⟩

/-- C6 witness: a record of another locale is skipped; the same record with
matching locale and empty filters is processed. -/
theorem c6_witness :
    (User.new "1001" "ko").foldOne ⟨"i18n", "master", "ja", "Translated", 5⟩
        [] [] = User.new "1001" "ko" ∧
    (User.new "1001" "ko").foldOne ⟨"i18n", "master", "ko", "Translated", 5⟩
        [] [] =
      (User.new "1001" "ko").process_stat
        ⟨"i18n", "master", "ko", "Translated", 5⟩ :=
  ⟨(c6_thm (User.new "1001" "ko") ⟨"i18n", "master", "ja", "Translated", 5⟩
      [] []).1 (by decide),
   (c6_thm (User.new "1001" "ko") ⟨"i18n", "master", "ko", "Translated", 5⟩
      [] []).2 (by decide)⟩

/-- C7: folding a record whose state label belongs to neither enum changes
no counter: every counter value of every counter set of every
(project, version) bucket reads the same before and after the fold. -/
theorem c7_thm (u : User) (ws : WeblateStat) (ps vs : List String)
    (h1 : ws.savedState ∉ User.trans_fields)
    (h2 : ws.savedState ∉ User.review_fields) :
    ∀ (p v : String) (kind : StatKind) (f : String),
      counterValue (u.foldOne ws ps vs) p v kind f = counterValue u p v kind f := by
  intro p v kind f
  by_cases hsk : skipCond u ws ps vs
  · rw [foldOne_skip u ws ps vs hsk]
  · rw [foldOne_not_skip u ws ps vs hsk]
    exact counterValue_process_unrecognized u ws h1 h2 p v kind f

/-- C7 witness: a passing record with the unrecognized label `"Fuzzy"`
leaves the already-recorded counters unchanged. -/
theorem c7_witness :
    counterValue ((User.mk "1001" "ko"
        [("i18n", [("master", VEntry.bucket [("Translated", 100), ("total", 100)]
          [])])]).foldOne ⟨"i18n", "master", "ko", "Fuzzy", 9⟩ [] [])
        "i18n" "master" .translation "total" =
      counterValue (User.mk "1001" "ko"
        [("i18n", [("master", VEntry.bucket [("Translated", 100), ("total", 100)]
          [])])]) "i18n" "master" .translation "total" :=
  c7_thm (User.mk "1001" "ko"
      [("i18n", [("master", VEntry.bucket [("Translated", 100), ("total", 100)]
        [])])]) ⟨"i18n", "master", "ko", "Fuzzy", 9⟩ [] []
    (by decide) (by decide) "i18n" "master" .translation "total"

/-- C8: folding a single record that passes the filters and matches the
language but carries an unrecognized state label still creates the
(project, version) bucket with two empty counter sets, so `needs_output
false` becomes true even though every counter is zero. -/
theorem c8_thm (u : User) (ws : WeblateStat) (ps vs : List String)
    (hns : ¬skipCond u ws ps vs)
    (h1 : ws.savedState ∉ User.trans_fields)
    (h2 : ws.savedState ∉ User.review_fields)
    (habs : statEntry u ws.projectSlug ws.versionSlug = none)
    (hg : GoodStats u = true) :
    statEntry (u.foldOne ws ps vs) ws.projectSlug ws.versionSlug =
      some (VEntry.bucket [] []) ∧
    (u.foldOne ws ps vs).needs_output false = true := by
  rw [foldOne_not_skip u ws ps vs hns]
  constructor
  · rw [statEntry_process_self, habs]
    simp only [Option.getD_none]
    rw [addState_id _ _ _ h1 h2]
  · have hgood := goodStats_process u ws hg
    have hne : (u.process_stat ws).stats ≠ [] := by
      rw [User.process_stat]
      simp only
      exact dictSet_ne_nil _ _ _
    have hdef : (u.process_stat ws).needs_output false =
        (!(u.process_stat ws).stats.isEmpty && GoodStats (u.process_stat ws)) := rfl
    rw [hdef, Bool.and_eq_true]
    exact ⟨by simp [List.isEmpty_eq_false, hne], hgood⟩

/-- C8 witness: folding one `"Fuzzy"` record into a fresh user creates the
empty bucket and flips `needs_output false` to true. -/
theorem c8_witness :
    statEntry ((User.new "1001" "ko").foldOne
        ⟨"i18n", "master", "ko", "Fuzzy", 9⟩ [] []) "i18n" "master" =
      some (VEntry.bucket [] []) ∧
    ((User.new "1001" "ko").foldOne
        ⟨"i18n", "master", "ko", "Fuzzy", 9⟩ [] []).needs_output false = true :=
  c8_thm (User.new "1001" "ko") ⟨"i18n", "master", "ko", "Fuzzy", 9⟩ [] []
    (by decide) (by decide) (by decide) (by decide) (by decide)

/-- C9: the report writer's user selection is exactly the users for which
`needs_output include_no_activities` is true (a permutation of the filtered
input, with characterized membership), ordered ascending by the pair
(language code, user id) under lexicographic string comparison. -/
theorem c9_thm (users : List User) (include_no_activities : Bool) :
    (write_stats_selected_users users include_no_activities).Perm
      (users.filter (fun u => u.needs_output include_no_activities)) ∧
    (∀ u : User, u ∈ write_stats_selected_users users include_no_activities ↔
      u ∈ users ∧ u.needs_output include_no_activities = true) ∧
    (write_stats_selected_users users include_no_activities).Pairwise
      (fun a b => a.lang < b.lang ∨ (a.lang = b.lang ∧ a.user_id ≤ b.user_id)) := by
  have hperm : (write_stats_selected_users users include_no_activities).Perm
      (users.filter (fun u => u.needs_output include_no_activities)) :=
    List.mergeSort_perm _ _
  refine ⟨hperm, fun u => ?_, ?_⟩
  · rw [hperm.mem_iff, List.mem_filter]
  · have hp := List.sorted_mergeSort
      (fun a b c hab hbc => userSortLe_trans a b c hab hbc)
      (fun a b => userSortLe_total a b)
      (users.filter (fun u => u.needs_output include_no_activities))
    exact hp.imp (fun hab => (userSortLe_iff _ _).mp hab)

/-- C10: the team-registry loader fails (the process exits) exactly when a
non-empty language filter names a code absent from the source mapping;
otherwise a non-empty filter yields one LanguageTeam per source entry whose
code is in the filter, and an empty filter yields one per source entry. -/
theorem c10_thm (content : List (String × TeamInfo)) (lang_list : List String) :
    (lang_list ≠ [] → (∃ c ∈ lang_list, c ∉ content.map Prod.fst) →
      LanguageTeam.load_from_language_team_yaml content lang_list =
        Except.error ()) ∧
    (lang_list ≠ [] → (∀ c ∈ lang_list, c ∈ content.map Prod.fst) →
      LanguageTeam.load_from_language_team_yaml content lang_list =
        Except.ok ((content.filter (fun p => decide (p.1 ∈ lang_list))).map
          (fun p => LanguageTeam.ofYaml p.1 p.2))) ∧
    (lang_list = [] →
      LanguageTeam.load_from_language_team_yaml content lang_list =
        Except.ok (content.map (fun p => LanguageTeam.ofYaml p.1 p.2))) := by
  refine ⟨fun hne hex => ?_, fun hne hall => ?_, fun hemp => ?_⟩
  · rw [LanguageTeam.load_from_language_team_yaml]
    obtain ⟨c0, hc0, hnc⟩ := hex
    have hfil : (lang_list.filter (fun lang_code =>
        !(content.map Prod.fst).contains lang_code)) ≠ [] :=
      List.ne_nil_of_mem (List.mem_filter.mpr ⟨hc0, by simpa using hnc⟩)
    have hc1 : (!lang_list.isEmpty) = true := by
      simp [List.isEmpty_eq_false, hne]
    have hc2 : (!(lang_list.filter (fun lang_code =>
        !(content.map Prod.fst).contains lang_code)).isEmpty) = true := by
      cases hX : lang_list.filter (fun lang_code =>
          !(content.map Prod.fst).contains lang_code) with
      | nil => exact absurd hX hfil
      | cons a l => rfl
    rw [if_pos (by rw [hc1, hc2]; rfl)]
  · rw [LanguageTeam.load_from_language_team_yaml]
    have hfil : (lang_list.filter (fun lang_code =>
        !(content.map Prod.fst).contains lang_code)) = [] := by
      rw [List.filter_eq_nil_iff]
      intro c hc
      simpa using hall c hc
    have hc2 : (!(lang_list.filter (fun lang_code =>
        !(content.map Prod.fst).contains lang_code)).isEmpty) = false := by
      rw [hfil]
      rfl
    rw [if_neg (by rw [hc2, Bool.and_false]; simp)]
    have hpred : ∀ p ∈ content,
        (lang_list.isEmpty || lang_list.contains p.1) = decide (p.1 ∈ lang_list) := by
      intro p _
      have h1 : lang_list.isEmpty = false := by
        simp [List.isEmpty_eq_false, hne]
      rw [h1]
      simp
    rw [List.filter_congr hpred]
  · subst hemp
    rw [LanguageTeam.load_from_language_team_yaml]
    rw [if_neg (by simp)]
    have hpred : ∀ p ∈ content,
        ((List.nil : List String).isEmpty || List.contains [] p.1) = true := by
      intro p _
      rfl
    rw [List.filter_congr hpred, List.filter_true]

/-- C10 witness: one entry loaded through a matching one-element filter. -/
theorem c10_witness :
    LanguageTeam.load_from_language_team_yaml
        [("ko", ⟨"Korean", [YamlId.str "1001", YamlId.int 1002], [], []⟩)]
        ["ko"] =
      Except.ok [LanguageTeam.ofYaml "ko"
        ⟨"Korean", [YamlId.str "1001", YamlId.int 1002], [], []⟩] := by
  have h := (c10_thm
      [("ko", ⟨"Korean", [YamlId.str "1001", YamlId.int 1002], [], []⟩)]
      ["ko"]).2.1 (by decide) (by decide)
  rw [h]
  rfl
